import Mathlib

/-!
Shallow embedding of the sensor-decoding layer of the ESP-MHZ19-DHT22
firmware (`src/dht22.rs` and `src/mh_z19.rs`).

The DHT22 single-wire decoder is modelled with an explicit simulated
clock: a `trace : Nat → Bool` gives the level of the data pin
(`true` = High) at each whole microsecond, and every 1-microsecond
polling sleep of the source advances the clock by one.  Pin/HAL
transport faults are not modelled (the pin is assumed infallible), so
the `PinError` variant of the source's error enum is omitted.  The
`f32` arithmetic of the source is modelled by exact rationals: every
integer operand is below `2 ^ 24` and hence exactly representable in
`f32`; the only rounding in the source is the final division by ten,
which the rational model keeps exact.

The MH-Z19 UART codec is modelled as a function of the 9-byte response
buffer; the byte transport is abstract, so the `HalError` variant of
its error enum is likewise omitted.
-/

/-- Decidable equality on `Except`, so that concrete runs of the
embedded operations can be checked by `decide`. -/
instance {ε α : Type _} [DecidableEq ε] [DecidableEq α] :
    DecidableEq (Except ε α) := fun a b =>
  match a, b with
  | .error x, .error y =>
    if h : x = y then .isTrue (by rw [h])
    else .isFalse (fun hc => h (Except.error.inj hc))
  | .ok x, .ok y =>
    if h : x = y then .isTrue (by rw [h])
    else .isFalse (fun hc => h (Except.ok.inj hc))
  | .error _, .ok _ => .isFalse (fun hc => Except.noConfusion hc)
  | .ok _, .error _ => .isFalse (fun hc => Except.noConfusion hc)

namespace Dht22

/-- DHT readout data (`ReadoutData` in `dht22.rs`), `f32` fields as `ℚ`. -/
structure ReadoutData where
  temperature : ℚ
  humidity : ℚ
deriving DecidableEq, Repr

/-- Error enum for the DHT sensor readout (`DhtError` in `dht22.rs`),
without the `PinError` transport variant.  `CheckSum` carries the
computed and the received checksum byte. -/
inductive DhtError where
  | NotFoundOnGPio : DhtError
  | ReadTimeout : DhtError
  | CheckSum : Nat → Nat → DhtError
deriving DecidableEq, Repr

/-- Polling loop of `Dht22::wait_for_state`: `e` is the elapsed-time
counter, `fuel` the number of loop iterations left (the source iterates
over `0..=timeout_us`).  Returns the `Ok` elapsed value (`none` for the
timeout branch) paired with the number of 1-microsecond sleeps
performed, so the caller's clock advances by the second component. -/
def waitGo (trace : Nat → Bool) (want : Bool) (t0 : Nat) :
    Nat → Nat → Option Nat × Nat
  | e, 0 => (none, e)
  | e, fuel + 1 =>
    if trace (t0 + e) = want then (some e, e)
    else waitGo trace want t0 (e + 1) fuel

/-- `Dht22::wait_for_state(state, timeout_us, timeout_error)`, started
at simulated time `t0`.  The source loops `for elapsed_time in
0..=timeout_us`, returning `Ok(elapsed_time)` as soon as the pin shows
the wanted level and sleeping one microsecond after each failed test. -/
def wait_for_state (trace : Nat → Bool) (want : Bool) (timeout_us t0 : Nat) :
    Option Nat × Nat :=
  waitGo trace want t0 0 (timeout_us + 1)

/-- `Dht22::parse_buffer`: humidity from bytes 0–1, temperature from
bytes 2–3 with bit 7 of byte 2 as sign flag, both divided by ten. -/
def parse_buffer (buf : List Nat) : ℚ × ℚ :=
  let humidity : ℚ := (((buf.getD 0 0) <<< 8) + buf.getD 1 0 : ℕ) / 10
  let temp : ℚ := ((((buf.getD 2 0 &&& 0x7f) <<< 8) ||| buf.getD 3 0 : ℕ) : ℚ) / 10
  (humidity, if buf.getD 2 0 &&& 0x80 ≠ 0 then -temp else temp)

/-- Checksum of `Dht22::read`: fold bytes 0–3 with `u16` addition (the
sum is at most `4 * 255`, so `Nat` addition is faithful), masked to the
low 8 bits. -/
def dhtChecksum (buf : List Nat) : Nat :=
  ((buf.take 4).foldl (fun accum next => accum + next) 0) &&& 0xff

/-- Tail of `Dht22::read`: validate the checksum of the assembled
5-byte frame and construct the `ReadoutData`, or fail with
`CheckSum (computed, received)`. -/
def decodeFrame (buf : List Nat) : Except DhtError ReadoutData :=
  let checksum := dhtChecksum buf
  if checksum = buf.getD 4 0 then
    let p := parse_buffer buf
    .ok { humidity := p.1, temperature := p.2 }
  else
    .error (.CheckSum checksum (buf.getD 4 0))

/-- The bit-packing statement of `Dht22::read`:
`buf[bit / 8] |= 1 << (7 - bit % 8)`. -/
def setBit (buf : List Nat) (bit : Nat) : List Nat :=
  let byte := bit / 8
  let shift := 7 - bit % 8
  buf.set byte (buf.getD byte 0 ||| (1 <<< shift))

/-- The 40-iteration bit-extraction loop of `Dht22::read`, with `fuel`
iterations left, current bit index `bit`, simulated clock `t` and
accumulated buffer `buf`: wait for High within 55 µs, measure the time
until Low within 70 µs, and set the bit when that time exceeds 30 µs.
Returns the final buffer and clock. -/
def readBits (trace : Nat → Bool) :
    Nat → Nat → Nat → List Nat → Except DhtError (List Nat × Nat)
  | 0, _, t, buf => .ok (buf, t)
  | fuel + 1, bit, t, buf =>
    match wait_for_state trace true 55 t with
    | (none, _) => .error .ReadTimeout
    | (some _, s1) =>
      match wait_for_state trace false 70 (t + s1) with
      | (none, _) => .error .ReadTimeout
      | (some elapsed, s2) =>
        readBits trace fuel (bit + 1) (t + s1 + s2)
          (if 30 < elapsed then setBit buf bit else buf)

/-- `Dht22::read` on a pin trace, starting at simulated time 0: the
wake (3000 µs low) and request (25 µs high) delays advance the clock to
3025, then the two 85 µs handshake waits (timeout ⇒ `NotFoundOnGPio`),
then the 40-bit extraction loop, then checksum validation. -/
def read (trace : Nat → Bool) : Except DhtError ReadoutData :=
  let t0 : Nat := 3000 + 25
  match wait_for_state trace true 85 t0 with
  | (none, _) => .error .NotFoundOnGPio
  | (some _, s1) =>
    match wait_for_state trace false 85 (t0 + s1) with
    | (none, _) => .error .NotFoundOnGPio
    | (some _, s2) =>
      match readBits trace 40 0 (t0 + s1 + s2) [0, 0, 0, 0, 0] with
      | .error e => .error e
      | .ok (buf, _) => decodeFrame buf

/-- Projection of the bit-extraction loop: the list of measured
high-pulse durations (the `elapsed` of the 70 µs wait of each
iteration), one per iteration, with the final clock.  Same wait
structure as `readBits`, recording the measurement instead of packing
the decoded bit. -/
def measureBits (trace : Nat → Bool) : Nat → Nat → Option (List Nat × Nat)
  | 0, t => some ([], t)
  | fuel + 1, t =>
    match wait_for_state trace true 55 t with
    | (none, _) => none
    | (some _, s1) =>
      match wait_for_state trace false 70 (t + s1) with
      | (none, _) => none
      | (some elapsed, s2) =>
        match measureBits trace fuel (t + s1 + s2) with
        | none => none
        | some (es, tEnd) => some (elapsed :: es, tEnd)

/-- Spec-side temperature formula, following the words of the spec:
big-endian 15-bit magnitude from bits 0–6 of byte 2 (high) and byte 3
(low), divided by 10, negated exactly when bit 7 of byte 2 is set. -/
def specTemperature (b2 b3 : Nat) : ℚ :=
  (if Nat.testBit b2 7 then -1 else 1) * (((b2 % 128) * 256 + b3 : ℕ) : ℚ) / 10

end Dht22

namespace MHz19

/-- Error enum of `mh_z19.rs` without the `HalError` transport variant:
`Checksum` carries the computed and the received checksum byte. -/
inductive MHz19Error where
  | Checksum : Nat → Nat → MHz19Error
deriving DecidableEq, Repr

/-- `MHz19::calculate_checksum`: sum bytes 1–7 as `i16` (the sum is at
most `7 * 255`, so `Int` addition is faithful), subtract from `0xff`,
add one, truncate to the low 8 bits (`as u8` on `i16` is the Euclidean
remainder modulo 256). -/
def calculate_checksum (data : List Nat) : Nat :=
  let checksum : Int :=
    (List.range 7).foldl (fun accum i => accum + (data.getD (i + 1) 0 : Int)) 0
  ((0xff - checksum + 1) % 256).toNat

/-- The fixed 9-byte command frame written by `MHz19::read_co2`. -/
def read_cmd : List Nat := [0xFF, 0x1, 0x86, 0, 0, 0, 0, 0, 0x79]

/-- `MHz19::read_co2` as a function of the 9-byte response buffer the
transport delivered: validate the recomputed checksum against response
byte 8, then return the big-endian 16-bit value of bytes 2–3. -/
def read_co2 (response : List Nat) : Except MHz19Error Nat :=
  let checksum := calculate_checksum response
  if checksum ≠ response.getD 8 0 then
    .error (.Checksum checksum (response.getD 8 0))
  else
    .ok (((response.getD 2 0) <<< 8) + response.getD 3 0)

/-- The frame written by `MHz19::enable_auto_calibration`: command byte
`0x79`, frame byte 3 set to `0xA0` when enabling, byte 8 set to the
checksum computed over the frame. -/
def enable_auto_calibration_cmd (enable : Bool) : List Nat :=
  let cmd : List Nat := [0xFF, 0x1, 0x79, 0, 0, 0, 0, 0, 0]
  let cmd := if enable then cmd.set 3 0xA0 else cmd
  cmd.set 8 (calculate_checksum cmd)

end MHz19

namespace Dht22

lemma waitGo_some {trace : Nat → Bool} {want : Bool} {t0 : Nat} (fuel : Nat) :
    ∀ e r s : Nat, waitGo trace want t0 e fuel = (some r, s) →
      s = r ∧ e ≤ r ∧ r < e + fuel ∧ trace (t0 + r) = want ∧
        ∀ j, e ≤ j → j < r → trace (t0 + j) ≠ want := by
  induction fuel with
  | zero => intro e r s h; simp [waitGo] at h
  | succ n ih =>
    intro e r s h
    simp only [waitGo] at h
    split at h
    · next hc =>
      injection h with h1 h2
      injection h1 with h1
      obtain rfl : e = r := h1
      refine ⟨h2.symm, Nat.le_refl _, by omega, hc, ?_⟩
      intro j hj hj'
      omega
    · next hc =>
      obtain ⟨hs, he, hr, htr, hmiss⟩ := ih (e + 1) r s h
      refine ⟨hs, by omega, by omega, htr, ?_⟩
      intro j hj hj'
      rcases Nat.eq_or_lt_of_le hj with rfl | hlt
      · exact hc
      · exact hmiss j hlt hj'

lemma waitGo_none {trace : Nat → Bool} {want : Bool} {t0 : Nat} (fuel : Nat) :
    ∀ e s : Nat, waitGo trace want t0 e fuel = (none, s) →
      s = e + fuel ∧ ∀ j, e ≤ j → j < e + fuel → trace (t0 + j) ≠ want := by
  induction fuel with
  | zero =>
    intro e s h
    simp only [waitGo] at h
    injection h with h1 h2
    exact ⟨by omega, fun j hj hj' => by omega⟩
  | succ n ih =>
    intro e s h
    simp only [waitGo] at h
    split at h
    · exact absurd (congrArg Prod.fst h) (by simp)
    · next hc =>
      obtain ⟨hs, hmiss⟩ := ih (e + 1) s h
      refine ⟨by omega, ?_⟩
      intro j hj hj'
      rcases Nat.eq_or_lt_of_le hj with rfl | hlt
      · exact hc
      · exact hmiss j hlt (by omega)

end Dht22

namespace Dht22

lemma readBits_error {trace : Nat → Bool} (fuel : Nat) :
    ∀ bit t buf err, readBits trace fuel bit t buf = .error err →
      err = .ReadTimeout := by
  induction fuel with
  | zero => intro bit t buf err h; simp [readBits] at h
  | succ n ih =>
    intro bit t buf err h
    simp only [readBits] at h
    split at h
    · exact (Except.error.inj h).symm
    · split at h
      · exact (Except.error.inj h).symm
      · exact ih _ _ _ _ h

lemma read_eq (trace : Nat → Bool) :
    Dht22.read trace =
      match wait_for_state trace true 85 3025 with
      | (none, _) => .error .NotFoundOnGPio
      | (some _, s1) =>
        match wait_for_state trace false 85 (3025 + s1) with
        | (none, _) => .error .NotFoundOnGPio
        | (some _, s2) =>
          match readBits trace 40 0 (3025 + s1 + s2) [0, 0, 0, 0, 0] with
          | .error e => .error e
          | .ok (buf, _) => decodeFrame buf := rfl

end Dht22

/-- C5: `read()` classifies its timeout failures by phase — a timeout
in either 85-microsecond handshake wait yields `NotFoundOnGPio`, while
a timeout in any of the 40 bit-phase waits (55 µs for High, 70 µs for
Low) yields `ReadTimeout` regardless of the failing bit index, and no
`ReadoutData` is produced (the result is an error, not an `ok`). -/
theorem dht_read_error_classification (trace : Nat → Bool) :
    (∀ s, Dht22.wait_for_state trace true 85 3025 = (none, s) →
      Dht22.read trace = .error .NotFoundOnGPio) ∧
    (∀ r1 s1 s, Dht22.wait_for_state trace true 85 3025 = (some r1, s1) →
      Dht22.wait_for_state trace false 85 (3025 + s1) = (none, s) →
      Dht22.read trace = .error .NotFoundOnGPio) ∧
    (∀ r1 s1 r2 s2 err, Dht22.wait_for_state trace true 85 3025 = (some r1, s1) →
      Dht22.wait_for_state trace false 85 (3025 + s1) = (some r2, s2) →
      Dht22.readBits trace 40 0 (3025 + s1 + s2) [0, 0, 0, 0, 0] = .error err →
      Dht22.read trace = .error .ReadTimeout ∧ err = Dht22.DhtError.ReadTimeout) := by
  refine ⟨?_, ?_, ?_⟩
  · intro s h
    simp only [Dht22.read_eq, h]
  · intro r1 s1 s h1 h2
    simp only [Dht22.read_eq, h1, h2]
  · intro r1 s1 r2 s2 err h1 h2 h3
    obtain rfl := Dht22.readBits_error 40 _ _ _ _ h3
    exact ⟨by simp only [Dht22.read_eq, h1, h2, h3], rfl⟩

/-- Witness for C5: a trace that never goes High times out in the first
handshake wait and yields `NotFoundOnGPio`; a trace that is High up to
microsecond 3100 and Low from then on passes the handshake but times
out in the first 55 µs bit-phase wait, yielding `ReadTimeout`. -/
theorem dht_read_error_classification_witness :
    Dht22.read (fun _ => false) = .error .NotFoundOnGPio ∧
      (Dht22.read (fun n => decide (n < 3100)) = .error .ReadTimeout ∧
        Dht22.DhtError.ReadTimeout = Dht22.DhtError.ReadTimeout) :=
  ⟨(dht_read_error_classification (fun _ => false)).1 86 (by decide),
   (dht_read_error_classification (fun n => decide (n < 3100))).2.2 0 0 75 75
     .ReadTimeout (by decide) (by decide) (by rfl)⟩

namespace Dht22

lemma decodeFrame_ok {buf : List Nat} {r : ReadoutData}
    (h : decodeFrame buf = .ok r) :
    dhtChecksum buf = buf.getD 4 0 ∧
      r = { humidity := (parse_buffer buf).1,
            temperature := (parse_buffer buf).2 } := by
  by_cases hc : dhtChecksum buf = buf.getD 4 0
  · refine ⟨hc, ?_⟩
    simp only [decodeFrame, if_pos hc] at h
    exact (Except.ok.inj h).symm
  · simp only [decodeFrame, if_neg hc] at h
    exact absurd h (by simp)

lemma decodeFrame_mismatch {buf : List Nat}
    (h : dhtChecksum buf ≠ buf.getD 4 0) :
    decodeFrame buf = .error (.CheckSum (dhtChecksum buf) (buf.getD 4 0)) := by
  simp only [decodeFrame, if_neg h]

/-- Bits 0–6 of a byte as a bit-mask versus as a remainder. -/
lemma and_127_eq_mod (a : Nat) : a &&& 0x7f = a % 128 := by
  have h := Nat.and_pow_two_sub_one_eq_mod a 7
  norm_num at h
  exact h

/-- Composing a high byte shifted left by 8 with a low byte below 256:
the bitwise-or of `parse_buffer` equals the big-endian sum of the
spec. -/
lemma shl_eight_lor (a b : Nat) (hb : b < 256) :
    (a <<< 8) ||| b = a * 256 + b := by
  have hb' : b < 2 ^ 8 := by simpa using hb
  have h2 := Nat.mul_add_lt_is_or hb' a
  rw [Nat.shiftLeft_eq, Nat.mul_comm a (2 ^ 8), ← h2]

lemma and_128_ne_zero (b2 : Nat) : b2 &&& 0x80 ≠ 0 ↔ Nat.testBit b2 7 = true := by
  have h := Nat.and_two_pow b2 7
  have h2 : (2 : Nat) ^ 7 = 128 := by norm_num
  rw [h2] at h
  rw [show (0x80 : Nat) = 128 from rfl, h]
  cases Nat.testBit b2 7 <;> simp

/-- `parse_buffer` on a 5-byte frame, written in the spec's arithmetic:
humidity is the big-endian 16-bit value of bytes 0–1 over ten, and the
temperature is the 15-bit magnitude of bytes 2–3 over ten, signed by
bit 7 of byte 2. -/
lemma parse_buffer_eq (b0 b1 b2 b3 b4 : Nat) (hb3 : b3 < 256) :
    parse_buffer [b0, b1, b2, b3, b4] =
      (((b0 * 256 + b1 : ℕ) : ℚ) / 10,
        (if Nat.testBit b2 7 then -1 else 1) *
          (((b2 % 128) * 256 + b3 : ℕ) : ℚ) / 10) := by
  show ((((b0 <<< 8) + b1 : ℕ) : ℚ) / 10,
      if b2 &&& 0x80 ≠ 0 then -((((b2 &&& 0x7f) <<< 8 ||| b3 : ℕ) : ℚ) / 10)
      else (((b2 &&& 0x7f) <<< 8 ||| b3 : ℕ) : ℚ) / 10) = _
  rw [Prod.mk.injEq]
  constructor
  · rw [Nat.shiftLeft_eq]
  · rw [shl_eight_lor _ b3 hb3, and_127_eq_mod]
    by_cases hsign : Nat.testBit b2 7 = true
    · rw [if_pos ((and_128_ne_zero b2).mpr hsign), if_pos hsign]
      ring
    · rw [if_neg (fun hc => hsign ((and_128_ne_zero b2).mp hc)), if_neg hsign]
      ring

lemma decodeFrame_ok_of {buf : List Nat} (h : dhtChecksum buf = buf.getD 4 0) :
    decodeFrame buf =
      .ok { humidity := (parse_buffer buf).1,
            temperature := (parse_buffer buf).2 } := by
  simp only [decodeFrame, if_pos h]

lemma decodeFrame_concrete (b0 b1 b2 b3 b4 : Nat) (hb3 : b3 < 256)
    (hck : dhtChecksum [b0, b1, b2, b3, b4] = b4) :
    decodeFrame [b0, b1, b2, b3, b4] =
      .ok { temperature := (if Nat.testBit b2 7 then -1 else 1) *
              (((b2 % 128) * 256 + b3 : ℕ) : ℚ) / 10,
            humidity := ((b0 * 256 + b1 : ℕ) : ℚ) / 10 } := by
  have h4 : ([b0, b1, b2, b3, b4] : List Nat).getD 4 0 = b4 := rfl
  rw [decodeFrame_ok_of (hck.trans h4.symm), parse_buffer_eq b0 b1 b2 b3 b4 hb3]

lemma decode_zero_frame :
    decodeFrame [0, 0, 0, 0, 0] = .ok { temperature := 0, humidity := 0 } := by
  rw [decodeFrame_concrete 0 0 0 0 0 (by norm_num) (by decide)]
  norm_num [Nat.zero_testBit]

lemma decode_example_frame :
    decodeFrame [0x02, 0x8C, 0x01, 0x0A, 0x99] =
      .ok { temperature := 26.6, humidity := 65.2 } := by
  rw [decodeFrame_concrete 0x02 0x8C 0x01 0x0A 0x99 (by norm_num) (by decide)]
  norm_num [show Nat.testBit 1 7 = false from by decide]

lemma decode_negative_frame :
    decodeFrame [0, 0, 0x80, 0x0A, 0x8A] =
      .ok { temperature := -1, humidity := 0 } := by
  rw [decodeFrame_concrete 0 0 0x80 0x0A 0x8A (by norm_num) (by decide)]
  norm_num [show Nat.testBit 128 7 = true from by decide]

lemma decode_overrange_frame :
    decodeFrame [0xFF, 0xFF, 0, 0, 0xFE] =
      .ok { temperature := 0, humidity := 6553.5 } := by
  rw [decodeFrame_concrete 0xFF 0xFF 0 0 0xFE (by norm_num) (by decide)]
  norm_num [Nat.zero_testBit]

end Dht22

/-- C2: `read()` constructs a `ReadoutData` only from a frame whose
computed checksum — bytes 0–3 summed as an unsigned 16-bit value and
masked to the low 8 bits — equals byte 4; on a mismatch it returns
`CheckSum (computed, received byte 4)` and no readout is produced from
the unvalidated frame. -/
theorem dht_read_checksum_gate (trace : Nat → Bool) :
    (∀ b0 b1 b2 b3 b4 : Nat,
      Dht22.dhtChecksum [b0, b1, b2, b3, b4] = (b0 + b1 + b2 + b3) % 256) ∧
    (∀ buf (r : Dht22.ReadoutData), Dht22.decodeFrame buf = .ok r →
      Dht22.dhtChecksum buf = buf.getD 4 0) ∧
    (∀ buf : List Nat, Dht22.dhtChecksum buf ≠ buf.getD 4 0 →
      Dht22.decodeFrame buf =
        .error (.CheckSum (Dht22.dhtChecksum buf) (buf.getD 4 0))) ∧
    (∀ r, Dht22.read trace = .ok r →
      ∃ start buf tEnd,
        Dht22.readBits trace 40 0 start [0, 0, 0, 0, 0] = .ok (buf, tEnd) ∧
          Dht22.dhtChecksum buf = buf.getD 4 0 ∧
          Dht22.decodeFrame buf = .ok r) := by
  refine ⟨?_, ?_, ?_, ?_⟩
  · intro b0 b1 b2 b3 b4
    show (0 + b0 + b1 + b2 + b3) &&& 0xff = (b0 + b1 + b2 + b3) % 256
    have h := Nat.and_pow_two_sub_one_eq_mod (0 + b0 + b1 + b2 + b3) 8
    have h2 : (2 : Nat) ^ 8 - 1 = 255 := by norm_num
    have h3 : (2 : Nat) ^ 8 = 256 := by norm_num
    rw [h2, h3] at h
    rw [show (0xff : Nat) = 255 from rfl, h]
    omega
  · intro buf r h
    exact (Dht22.decodeFrame_ok h).1
  · intro buf h
    exact Dht22.decodeFrame_mismatch h
  · intro r h
    rw [Dht22.read_eq] at h
    split at h
    · exact absurd h (by simp)
    · split at h
      · exact absurd h (by simp)
      · split at h
        · exact absurd h (by simp)
        · next heq => exact ⟨_, _, _, heq, (Dht22.decodeFrame_ok h).1, h⟩

/-- Witness for C2 at the trace that alternates every microsecond: the
read succeeds, producing the all-zero frame, whose checksum is 0. -/
theorem dht_read_checksum_gate_witness :
    ∃ start buf tEnd,
      Dht22.readBits (fun n => decide (n % 2 = 0)) 40 0 start [0, 0, 0, 0, 0] =
          .ok (buf, tEnd) ∧
        Dht22.dhtChecksum buf = buf.getD 4 0 ∧
        Dht22.decodeFrame buf = .ok { temperature := 0, humidity := 0 } :=
  (dht_read_checksum_gate (fun n => decide (n % 2 = 0))).2.2.2
    { temperature := 0, humidity := 0 } (by
      simp only [Dht22.read_eq,
        show Dht22.wait_for_state (fun n => decide (n % 2 = 0)) true 85 3025 =
          (some 1, 1) from by decide,
        show Dht22.wait_for_state (fun n => decide (n % 2 = 0)) false 85 3026 =
          (some 1, 1) from by decide,
        show Dht22.readBits (fun n => decide (n % 2 = 0)) 40 0 3027 [0, 0, 0, 0, 0] =
          .ok ([0, 0, 0, 0, 0], 3107) from by decide]
      exact Dht22.decode_zero_frame)

/-- C1 (counterexample): the spec's worked example is inconsistent with
its own checksum and temperature rules — decoding
`[0x02, 0x8C, 0x01, 0x0A, 0x6E]` does not succeed: the computed
checksum of bytes 0–3 is `(0x02 + 0x8C + 0x01 + 0x0A) & 0xff = 0x99`,
not `0x6E`, so the frame is rejected; and the frame with the correct
trailing byte `0x99` is accepted with temperature 26.6 (raw `0x010A` =
266), not 26.2 — refuting both the claimed success at `0x6E` and the
claimed rejection of every other trailing byte. -/
theorem dht_frame_example_counterexample :
    Dht22.decodeFrame [0x02, 0x8C, 0x01, 0x0A, 0x6E] =
        .error (.CheckSum 0x99 0x6E) ∧
      Dht22.decodeFrame [0x02, 0x8C, 0x01, 0x0A, 0x99] =
        .ok { temperature := 26.6, humidity := 65.2 } :=
  ⟨by decide, Dht22.decode_example_frame⟩

/-- C1 (amended): decoding `[0x02, 0x8C, 0x01, 0x0A, b]` succeeds
exactly for trailing byte `b = 0x99` (the checksum of bytes 0–3),
yielding humidity exactly 65.2 and temperature exactly 26.6; every
other value of the trailing byte is rejected with a checksum error. -/
theorem dht_frame_example_amended :
    Dht22.decodeFrame [0x02, 0x8C, 0x01, 0x0A, 0x99] =
        .ok { temperature := 26.6, humidity := 65.2 } ∧
      ∀ b, b < 256 → b ≠ 0x99 →
        Dht22.decodeFrame [0x02, 0x8C, 0x01, 0x0A, b] =
          .error (.CheckSum 0x99 b) := by
  refine ⟨Dht22.decode_example_frame, ?_⟩
  intro b hb hne
  have hc : Dht22.dhtChecksum [0x02, 0x8C, 0x01, 0x0A, b] = 0x99 := by
    show (0 + 0x02 + 0x8C + 0x01 + 0x0A) &&& 0xff = 0x99
    decide
  have hg : ([0x02, 0x8C, 0x01, 0x0A, b] : List Nat).getD 4 0 = b := rfl
  have hne' : Dht22.dhtChecksum [0x02, 0x8C, 0x01, 0x0A, b] ≠
      ([0x02, 0x8C, 0x01, 0x0A, b] : List Nat).getD 4 0 := by
    rw [hc, hg]
    exact fun h => hne h.symm
  have h2 := Dht22.decodeFrame_mismatch hne'
  rw [hc, hg] at h2
  exact h2

/-- Witness for C1 (amended) at trailing byte `0x6E`: rejected with the
computed/received checksum pair. -/
theorem dht_frame_example_amended_witness :
    Dht22.decodeFrame [0x02, 0x8C, 0x01, 0x0A, 0x6E] =
      .error (.CheckSum 0x99 0x6E) :=
  dht_frame_example_amended.2 0x6E (by decide) (by decide)

/-- C6: for every frame the codec accepts, the decoded temperature is
the big-endian 15-bit magnitude of bits 0–6 of byte 2 and byte 3,
divided by 10, negated exactly when bit 7 of byte 2 is set; in
particular temperature bytes `0x80, 0x0A` decode to exactly `-1`. -/
theorem dht_temperature_decode (b0 b1 b2 b3 b4 : Nat) (r : Dht22.ReadoutData)
    (hb3 : b3 < 256)
    (hok : Dht22.decodeFrame [b0, b1, b2, b3, b4] = .ok r) :
    r.temperature = Dht22.specTemperature b2 b3 ∧
      Dht22.decodeFrame [0, 0, 0x80, 0x0A, 0x8A] =
        .ok { temperature := -1, humidity := 0 } := by
  refine ⟨?_, Dht22.decode_negative_frame⟩
  obtain ⟨-, rfl⟩ := Dht22.decodeFrame_ok hok
  show (Dht22.parse_buffer [b0, b1, b2, b3, b4]).2 = Dht22.specTemperature b2 b3
  rw [Dht22.parse_buffer_eq b0 b1 b2 b3 b4 hb3]
  rfl

/-- Witness for C6 at the frame `[0, 0, 0x80, 0x0A, 0x8A]` (checksum
`0x8A = 0x80 + 0x0A`): sign bit set, magnitude 10, temperature -1. -/
theorem dht_temperature_decode_witness :
    (⟨-1, 0⟩ : Dht22.ReadoutData).temperature =
        Dht22.specTemperature 0x80 0x0A ∧
      Dht22.decodeFrame [0, 0, 0x80, 0x0A, 0x8A] =
        .ok { temperature := -1, humidity := 0 } :=
  dht_temperature_decode 0 0 0x80 0x0A 0x8A ⟨-1, 0⟩ (by decide)
    Dht22.decode_negative_frame

/-- C9 (counterexample): the codec performs no range check on humidity:
the frame `[0xFF, 0xFF, 0, 0, 0xFE]` has a valid checksum
(`(255 + 255) & 0xff = 0xFE`) and decodes to humidity 6553.5, far
outside the claimed range `0..100`. -/
theorem dht_humidity_range_counterexample :
    Dht22.decodeFrame [0xFF, 0xFF, 0, 0, 0xFE] =
        .ok { temperature := 0, humidity := 6553.5 } ∧
      ¬ ((6553.5 : ℚ) ≤ 100) :=
  ⟨Dht22.decode_overrange_frame, by norm_num⟩

/-- C9 (amended): for every frame the codec accepts, the humidity of
the readout is the big-endian 16-bit value of bytes 0–1 divided by 10;
it is always nonnegative, and it lies within `0..100` exactly when the
raw 16-bit value is at most 1000 — the codec itself enforces no upper
range bound. -/
theorem dht_humidity_decode (b0 b1 b2 b3 b4 : Nat) (r : Dht22.ReadoutData)
    (hok : Dht22.decodeFrame [b0, b1, b2, b3, b4] = .ok r) :
    r.humidity = ((b0 * 256 + b1 : ℕ) : ℚ) / 10 ∧ 0 ≤ r.humidity ∧
      (r.humidity ≤ 100 ↔ b0 * 256 + b1 ≤ 1000) := by
  obtain ⟨-, rfl⟩ := Dht22.decodeFrame_ok hok
  show (Dht22.parse_buffer [b0, b1, b2, b3, b4]).1 =
        ((b0 * 256 + b1 : ℕ) : ℚ) / 10 ∧
      0 ≤ (Dht22.parse_buffer [b0, b1, b2, b3, b4]).1 ∧
      ((Dht22.parse_buffer [b0, b1, b2, b3, b4]).1 ≤ 100 ↔
        b0 * 256 + b1 ≤ 1000)
  have e0 : (Dht22.parse_buffer [b0, b1, b2, b3, b4]).1 =
      ((b0 * 256 + b1 : ℕ) : ℚ) / 10 := by
    show (((b0 <<< 8) + b1 : ℕ) : ℚ) / 10 = _
    rw [Nat.shiftLeft_eq]
  rw [e0]
  refine ⟨rfl, by positivity, ?_⟩
  rw [div_le_iff₀ (by norm_num : (0 : ℚ) < 10)]
  norm_cast

/-- Witness for C9 (amended) at the valid frame
`[0xFF, 0xFF, 0, 0, 0xFE]`: humidity 6553.5 = 65535/10, nonnegative,
and above 100 because the raw value 65535 exceeds 1000. -/
theorem dht_humidity_decode_witness :
    (⟨0, 6553.5⟩ : Dht22.ReadoutData).humidity =
        ((255 * 256 + 255 : ℕ) : ℚ) / 10 ∧
      0 ≤ (⟨0, 6553.5⟩ : Dht22.ReadoutData).humidity ∧
      ((⟨0, 6553.5⟩ : Dht22.ReadoutData).humidity ≤ 100 ↔
        255 * 256 + 255 ≤ 1000) :=
  dht_humidity_decode 255 255 0 0 254 ⟨0, 6553.5⟩ Dht22.decode_overrange_frame

/-- C4 (counterexample): as stated, the claim bounds the number of
1-microsecond polling sleeps on the timeout path by the timeout `N`;
but with `N = 0` and a line that never shows the wanted level the loop
body runs for `elapsed_time = 0`, sleeps once, and only then fails, so
it performs `N + 1 = 1` sleeps, not at most `0`. -/
theorem wait_for_state_counterexample :
    Dht22.wait_for_state (fun _ => false) true 0 0 = (none, 1) ∧ ¬ (1 ≤ 0) := by
  decide

/-- C4 (amended): `wait_for_state(level, N, err)` returns `Ok(t)` where
`t` is the first sampled whole microsecond at which the wanted level is
observed, `t ≤ N`, having slept `t` microseconds; it fails with the
supplied timeout error exactly when the level is absent at every
sampled microsecond `0..N`, in which case it performs exactly `N + 1`
(not at most `N`) one-microsecond polling sleeps and does not poll past
elapsed time `N`. -/
theorem wait_for_state_bounds (trace : Nat → Bool) (want : Bool) (N t0 : Nat) :
    (∀ r s, Dht22.wait_for_state trace want N t0 = (some r, s) →
      r ≤ N ∧ s = r ∧ trace (t0 + r) = want ∧ ∀ j, j < r → trace (t0 + j) ≠ want) ∧
    (∀ s, Dht22.wait_for_state trace want N t0 = (none, s) →
      s = N + 1 ∧ ∀ j, j ≤ N → trace (t0 + j) ≠ want) ∧
    ((∃ j, j ≤ N ∧ trace (t0 + j) = want) →
      ∃ r s, Dht22.wait_for_state trace want N t0 = (some r, s)) := by
  refine ⟨?_, ?_, ?_⟩
  · intro r s h
    obtain ⟨hs, -, hr, htr, hmiss⟩ := Dht22.waitGo_some (N + 1) 0 r s h
    exact ⟨by omega, hs, htr, fun j hj => hmiss j (Nat.zero_le _) hj⟩
  · intro s h
    obtain ⟨hs, hmiss⟩ := Dht22.waitGo_none (N + 1) 0 s h
    exact ⟨by omega, fun j hj => hmiss j (Nat.zero_le _) (by omega)⟩
  · rintro ⟨j, hj, htr⟩
    rcases ho : Dht22.wait_for_state trace want N t0 with ⟨o, s⟩
    cases o with
    | some r => exact ⟨r, s, rfl⟩
    | none =>
      obtain ⟨-, hmiss⟩ := Dht22.waitGo_none (N + 1) 0 s ho
      exact absurd htr (hmiss j (Nat.zero_le _) (by omega))

/-- Witness for C4 (amended) at the trace that is High exactly from
microsecond 3 on: the wait succeeds at elapsed time 3 within bound 5. -/
theorem wait_for_state_bounds_witness :
    3 ≤ 5 ∧ 3 = 3 ∧ (fun n => decide (3 ≤ n)) (0 + 3) = true ∧
      ∀ j, j < 3 → (fun n => decide (3 ≤ n)) (0 + j) ≠ true :=
  (wait_for_state_bounds (fun n => decide (3 ≤ n)) true 5 0).1 3 3 (by decide)

namespace MHz19

/-- The checksum fold of `calculate_checksum`, written out: the `i16`
sum of bytes 1–7 subtracted from `0xff`, plus one, low 8 bits. -/
lemma calculate_checksum_expand (data : List Nat) :
    calculate_checksum data =
      ((0xff - ((0 : ℤ) + data.getD 1 0 + data.getD 2 0 + data.getD 3 0 +
          data.getD 4 0 + data.getD 5 0 + data.getD 6 0 + data.getD 7 0) + 1) %
        256).toNat := rfl

lemma read_co2_ok {resp : List Nat}
    (h : calculate_checksum resp = resp.getD 8 0) :
    read_co2 resp = .ok (((resp.getD 2 0) <<< 8) + resp.getD 3 0) := by
  simp only [read_co2, if_neg (not_not_intro h)]

lemma read_co2_mismatch {resp : List Nat}
    (h : calculate_checksum resp ≠ resp.getD 8 0) :
    read_co2 resp =
      .error (.Checksum (calculate_checksum resp) (resp.getD 8 0)) := by
  simp only [read_co2, if_pos h]

lemma getD_set_zero (l : List Nat) (b0 i : Nat) (hi : i ≠ 0) :
    (l.set 0 b0).getD i 0 = l.getD i 0 := by
  simp [List.getD_eq_getElem?_getD, List.getElem?_set_ne (Ne.symm hi)]

end MHz19

/-- C7: `read_co2()` writes the fixed command frame
`[0xFF, 0x01, 0x86, 0, 0, 0, 0, 0, 0x79]` and validates the 9-byte
response by recomputing the checksum over bytes 1–7 (sum as signed
16-bit, subtracted from `0xFF`, plus 1, truncated to 8 bits): when it
matches byte 8 the result is the big-endian 16-bit value of bytes 2–3,
otherwise the checksum error carrying the computed and received
values; in particular the response `[0xFF, 0x86, 0x02, 0x58, 0, 0, 0,
0, x]` yields 600 exactly for `x = 0x20` and a checksum error
`(0x20, x)` for every other trailing byte. -/
theorem mhz19_read_co2_spec (resp : List Nat) (hlen : resp.length = 9) :
    MHz19.read_cmd = [0xFF, 0x01, 0x86, 0x00, 0x00, 0x00, 0x00, 0x00, 0x79] ∧
    (∀ data : List Nat, MHz19.calculate_checksum data =
      ((0xFF - (data.getD 1 0 + data.getD 2 0 + data.getD 3 0 + data.getD 4 0 +
          data.getD 5 0 + data.getD 6 0 + data.getD 7 0 : ℤ) + 1) % 256).toNat) ∧
    (MHz19.calculate_checksum resp = resp.getD 8 0 →
      MHz19.read_co2 resp = .ok (resp.getD 2 0 * 256 + resp.getD 3 0)) ∧
    (MHz19.calculate_checksum resp ≠ resp.getD 8 0 →
      MHz19.read_co2 resp =
        .error (.Checksum (MHz19.calculate_checksum resp) (resp.getD 8 0))) ∧
    MHz19.read_co2 [0xFF, 0x86, 0x02, 0x58, 0, 0, 0, 0, 0x20] = .ok 600 ∧
    (∀ x, x < 256 → x ≠ 0x20 →
      MHz19.read_co2 [0xFF, 0x86, 0x02, 0x58, 0, 0, 0, 0, x] =
        .error (.Checksum 0x20 x)) := by
  refine ⟨rfl, ?_, ?_, ?_, ?_, ?_⟩
  · intro data
    rw [MHz19.calculate_checksum_expand]
    omega
  · intro h
    rw [MHz19.read_co2_ok h, Nat.shiftLeft_eq]
  · intro h
    exact MHz19.read_co2_mismatch h
  · exact MHz19.read_co2_ok (by decide)
  · intro x hx hne
    have hc : MHz19.calculate_checksum [0xFF, 0x86, 0x02, 0x58, 0, 0, 0, 0, x] =
        0x20 := by
      rw [MHz19.calculate_checksum_expand]
      show ((0xff - ((0 : ℤ) + 0x86 + 0x02 + 0x58 + 0 + 0 + 0 + 0) + 1) %
        256).toNat = 0x20
      decide
    have hg : ([0xFF, 0x86, 0x02, 0x58, 0, 0, 0, 0, x] : List Nat).getD 8 0 =
        x := rfl
    have h := @MHz19.read_co2_mismatch [0xFF, 0x86, 0x02, 0x58, 0, 0, 0, 0, x]
      (by rw [hc, hg]; exact fun hh => hne hh.symm)
    rw [hc, hg] at h
    exact h

/-- Witness for C7 at the concrete checksum-valid response: the read
returns the big-endian value of bytes 2–3. -/
theorem mhz19_read_co2_spec_witness :
    MHz19.read_co2 [0xFF, 0x86, 0x02, 0x58, 0, 0, 0, 0, 0x20] =
      .ok (([0xFF, 0x86, 0x02, 0x58, 0, 0, 0, 0, 0x20] : List Nat).getD 2 0 * 256 +
        ([0xFF, 0x86, 0x02, 0x58, 0, 0, 0, 0, 0x20] : List Nat).getD 3 0) :=
  (mhz19_read_co2_spec [0xFF, 0x86, 0x02, 0x58, 0, 0, 0, 0, 0x20] rfl).2.2.1
    (by decide)

/-- C8: every frame the CO2 codec itself constructs — the fixed
`read_co2` command frame and, for each boolean argument, the
`enable_auto_calibration` frame (command byte `0x79`, first data byte
`0xA0` when enabling, `0x00` otherwise) — carries in byte 8 the
checksum recomputed over its bytes 1–7 by the spec's rule. -/
theorem mhz19_constructed_frames_checksum :
    (MHz19.read_cmd.getD 8 0 = MHz19.calculate_checksum MHz19.read_cmd ∧
      MHz19.read_cmd.length = 9) ∧
    ∀ enable : Bool,
      (MHz19.enable_auto_calibration_cmd enable).getD 8 0 =
          MHz19.calculate_checksum (MHz19.enable_auto_calibration_cmd enable) ∧
        (MHz19.enable_auto_calibration_cmd enable).getD 3 0 =
          (if enable then 0xA0 else 0x00) ∧
        (MHz19.enable_auto_calibration_cmd enable).getD 2 0 = 0x79 ∧
        (MHz19.enable_auto_calibration_cmd enable).length = 9 := by
  refine ⟨⟨by decide, by decide⟩, ?_⟩
  intro enable
  cases enable <;> exact ⟨by decide, by decide, by decide, by decide⟩

/-- C10: `read_co2` validates only the checksum byte of the response:
for every 9-byte response whose byte 8 equals the checksum recomputed
over bytes 1–7 it returns the big-endian 16-bit value of bytes 2–3, no
matter what bytes 0 (nominal start byte) and 1 (nominal command echo)
hold — the result is invariant under replacing byte 0 — and aside from
transport faults (not modelled) it fails exactly when the recomputed
checksum differs from byte 8. -/
theorem mhz19_checksum_only_validation (resp : List Nat)
    (hlen : resp.length = 9) :
    (MHz19.read_co2 resp = .ok (((resp.getD 2 0) <<< 8) + resp.getD 3 0) ↔
      MHz19.calculate_checksum resp = resp.getD 8 0) ∧
    ((∃ err, MHz19.read_co2 resp = .error err) ↔
      MHz19.calculate_checksum resp ≠ resp.getD 8 0) ∧
    (∀ b0, MHz19.read_co2 (resp.set 0 b0) = MHz19.read_co2 resp) := by
  refine ⟨⟨?_, MHz19.read_co2_ok⟩, ⟨?_, ?_⟩, ?_⟩
  · intro h
    by_contra hne
    rw [MHz19.read_co2_mismatch hne] at h
    exact Except.noConfusion h
  · rintro ⟨err, h⟩ hc
    rw [MHz19.read_co2_ok hc] at h
    exact Except.noConfusion h
  · intro hne
    exact ⟨_, MHz19.read_co2_mismatch hne⟩
  · intro b0
    have hcs : MHz19.calculate_checksum (resp.set 0 b0) =
        MHz19.calculate_checksum resp := by
      rw [MHz19.calculate_checksum_expand, MHz19.calculate_checksum_expand,
        MHz19.getD_set_zero resp b0 1 (by decide),
        MHz19.getD_set_zero resp b0 2 (by decide),
        MHz19.getD_set_zero resp b0 3 (by decide),
        MHz19.getD_set_zero resp b0 4 (by decide),
        MHz19.getD_set_zero resp b0 5 (by decide),
        MHz19.getD_set_zero resp b0 6 (by decide),
        MHz19.getD_set_zero resp b0 7 (by decide)]
    simp only [MHz19.read_co2, hcs,
      MHz19.getD_set_zero resp b0 2 (by decide),
      MHz19.getD_set_zero resp b0 3 (by decide),
      MHz19.getD_set_zero resp b0 8 (by decide)]

/-- Witness for C10 at the concrete valid response: replacing the
start byte 0xFF by 0 does not change the result. -/
theorem mhz19_checksum_only_validation_witness :
    MHz19.read_co2 (([0xFF, 0x86, 0x02, 0x58, 0, 0, 0, 0, 0x20] : List Nat).set 0 0) =
      MHz19.read_co2 [0xFF, 0x86, 0x02, 0x58, 0, 0, 0, 0, 0x20] :=
  (mhz19_checksum_only_validation [0xFF, 0x86, 0x02, 0x58, 0, 0, 0, 0, 0x20]
    rfl).2.2 0

namespace Dht22

lemma length_setBit (buf : List Nat) (bit : Nat) :
    (setBit buf bit).length = buf.length := by
  simp [setBit]

/-- Two distinct bit indices below 40 never map to the same
(byte, bit-position) pair of the packing `i ↦ (i / 8, 7 - i % 8)`. -/
lemma bitpos_inj {a b : Nat} (ha : a < 40) (hb : b < 40)
    (h1 : a / 8 = b / 8) (h2 : 7 - a % 8 = 7 - b % 8) : a = b := by
  omega

/-- Effect of `setBit` on a single packed bit of the buffer. -/
lemma testBit_setBit (buf : List Nat) (bit k i : Nat) (hlen : buf.length = 5)
    (hbit : bit < 40) (hk : k < 5) :
    Nat.testBit ((setBit buf bit).getD k 0) i =
      (Nat.testBit (buf.getD k 0) i ||
        (decide (k = bit / 8) && decide (i = 7 - bit % 8))) := by
  by_cases hkb : k = bit / 8
  · subst hkb
    have h1 : (setBit buf bit).getD (bit / 8) 0 =
        buf.getD (bit / 8) 0 ||| (1 <<< (7 - bit % 8)) := by
      show (buf.set (bit / 8)
          (buf.getD (bit / 8) 0 ||| (1 <<< (7 - bit % 8)))).getD (bit / 8) 0 = _
      rw [List.getD_eq_getElem?_getD, List.getElem?_set_self (by omega)]
      rfl
    have h2 : (1 : Nat) <<< (7 - bit % 8) = 2 ^ (7 - bit % 8) := by
      rw [Nat.shiftLeft_eq, Nat.one_mul]
    rw [h1, Nat.testBit_lor, h2, Nat.testBit_two_pow]
    simp [eq_comm]
  · have h1 : (setBit buf bit).getD k 0 = buf.getD k 0 := by
      show (buf.set (bit / 8)
          (buf.getD (bit / 8) 0 ||| (1 <<< (7 - bit % 8)))).getD k 0 = _
      rw [List.getD_eq_getElem?_getD,
        List.getElem?_set_ne (fun h => hkb h.symm),
        ← List.getD_eq_getElem?_getD]
    rw [h1]
    simp [hkb]

lemma readBits_stuck1 {trace : Nat → Bool} {fuel b t : Nat} {buf : List Nat}
    {s : Nat} (hw1 : wait_for_state trace true 55 t = (none, s)) :
    readBits trace (fuel + 1) b t buf = .error .ReadTimeout := by
  simp only [readBits, hw1]

lemma readBits_stuck2 {trace : Nat → Bool} {fuel b t : Nat} {buf : List Nat}
    {r1 s1 s : Nat} (hw1 : wait_for_state trace true 55 t = (some r1, s1))
    (hw2 : wait_for_state trace false 70 (t + s1) = (none, s)) :
    readBits trace (fuel + 1) b t buf = .error .ReadTimeout := by
  simp only [readBits, hw1, hw2]

lemma readBits_step {trace : Nat → Bool} {fuel b t : Nat} {buf : List Nat}
    {r1 s1 e s2 : Nat}
    (hw1 : wait_for_state trace true 55 t = (some r1, s1))
    (hw2 : wait_for_state trace false 70 (t + s1) = (some e, s2)) :
    readBits trace (fuel + 1) b t buf =
      readBits trace fuel (b + 1) (t + s1 + s2)
        (if 30 < e then setBit buf b else buf) := by
  simp only [readBits, hw1, hw2]

lemma measureBits_stuck1 {trace : Nat → Bool} {fuel t : Nat} {s : Nat}
    (hw1 : wait_for_state trace true 55 t = (none, s)) :
    measureBits trace (fuel + 1) t = none := by
  simp only [measureBits, hw1]

lemma measureBits_stuck2 {trace : Nat → Bool} {fuel t : Nat} {r1 s1 s : Nat}
    (hw1 : wait_for_state trace true 55 t = (some r1, s1))
    (hw2 : wait_for_state trace false 70 (t + s1) = (none, s)) :
    measureBits trace (fuel + 1) t = none := by
  simp only [measureBits, hw1, hw2]

lemma measureBits_step {trace : Nat → Bool} {fuel t : Nat} {r1 s1 e s2 : Nat}
    (hw1 : wait_for_state trace true 55 t = (some r1, s1))
    (hw2 : wait_for_state trace false 70 (t + s1) = (some e, s2)) :
    measureBits trace (fuel + 1) t =
      match measureBits trace fuel (t + s1 + s2) with
      | none => none
      | some (es, tEnd) => some (e :: es, tEnd) := by
  simp only [measureBits, hw1, hw2]

/-- The bit-extraction loop refines the measurement projection: with
`fuel` iterations left at bit index `b` (`b + fuel = 40`) on a buffer
whose not-yet-written packed positions are all clear, the loop fails
exactly when some measurement times out, and on success the packed bit
of index `b + j` equals the 30-microsecond threshold test of the j-th
measured duration, while all other positions are untouched. -/
lemma readBits_measure (trace : Nat → Bool) :
    ∀ fuel, ∀ b t : Nat, ∀ buf : List Nat, buf.length = 5 → b + fuel = 40 →
      (∀ j, j < fuel →
        Nat.testBit (buf.getD ((b + j) / 8) 0) (7 - (b + j) % 8) = false) →
      ((∃ err, readBits trace fuel b t buf = .error err) ↔
        measureBits trace fuel t = none) ∧
      (∀ buf' tEnd, readBits trace fuel b t buf = .ok (buf', tEnd) →
        buf'.length = 5 ∧
        ∃ es, measureBits trace fuel t = some (es, tEnd) ∧ es.length = fuel ∧
          (∀ j, j < fuel →
            Nat.testBit (buf'.getD ((b + j) / 8) 0) (7 - (b + j) % 8) =
              decide (30 < es.getD j 0)) ∧
          (∀ k i, k < 5 →
            (∀ j, j < fuel → ¬(k = (b + j) / 8 ∧ i = 7 - (b + j) % 8)) →
            Nat.testBit (buf'.getD k 0) i = Nat.testBit (buf.getD k 0) i)) := by
  intro fuel
  induction fuel with
  | zero =>
    intro b t buf hlen hb40 hfree
    refine ⟨⟨fun ⟨err, h⟩ => absurd h (by simp [readBits]),
      fun h => absurd h (by simp [measureBits])⟩, ?_⟩
    intro buf' tEnd h
    simp only [readBits] at h
    injection h with h
    injection h with h1 h2
    subst h1
    subst h2
    exact ⟨hlen, [], rfl, rfl, fun j hj => absurd hj (Nat.not_lt_zero j),
      fun k i hk hun => rfl⟩
  | succ fuel ih =>
    intro b t buf hlen hb40 hfree
    rcases hw1 : wait_for_state trace true 55 t with ⟨_ | r1, s1⟩
    · refine ⟨?_, ?_⟩
      · rw [readBits_stuck1 hw1, measureBits_stuck1 hw1]
        simp
      · intro buf' tEnd h
        rw [readBits_stuck1 hw1] at h
        exact absurd h (by simp)
    · rcases hw2 : wait_for_state trace false 70 (t + s1) with ⟨_ | e, s2⟩
      · refine ⟨?_, ?_⟩
        · rw [readBits_stuck2 hw1 hw2, measureBits_stuck2 hw1 hw2]
          simp
        · intro buf' tEnd h
          rw [readBits_stuck2 hw1 hw2] at h
          exact absurd h (by simp)
      · have hstep := @readBits_step trace fuel b t buf r1 s1 e s2 hw1 hw2
        have hmstep := @measureBits_step trace fuel t r1 s1 e s2 hw1 hw2
        have hlen2 : (if 30 < e then setBit buf b else buf).length = 5 := by
          split
          · rw [length_setBit]
            exact hlen
          · exact hlen
        have hfree2 : ∀ j, j < fuel →
            Nat.testBit ((if 30 < e then setBit buf b else buf).getD
              ((b + 1 + j) / 8) 0) (7 - (b + 1 + j) % 8) = false := by
          intro j hj
          have hold : Nat.testBit (buf.getD ((b + 1 + j) / 8) 0)
              (7 - (b + 1 + j) % 8) = false := by
            have h := hfree (j + 1) (by omega)
            rw [show b + (j + 1) = b + 1 + j from by omega] at h
            exact h
          by_cases h30 : 30 < e
          · rw [if_pos h30,
              testBit_setBit buf b ((b + 1 + j) / 8) (7 - (b + 1 + j) % 8)
                hlen (by omega) (by omega),
              hold]
            by_cases hd : (b + 1 + j) / 8 = b / 8
            · have hne : ¬(7 - (b + 1 + j) % 8 = 7 - b % 8) := fun hc =>
                (by omega : ¬(b + 1 + j = b))
                  (bitpos_inj (by omega) (by omega) hd hc)
              simp [hne]
            · simp [hd]
          · rw [if_neg h30]
            exact hold
        obtain ⟨ihiff, ihok⟩ :=
          ih (b + 1) (t + s1 + s2) (if 30 < e then setBit buf b else buf)
            hlen2 (by omega) hfree2
        refine ⟨?_, ?_⟩
        · rw [hstep, hmstep]
          cases hm : measureBits trace fuel (t + s1 + s2) with
          | none => exact ⟨fun _ => rfl, fun _ => ihiff.mpr hm⟩
          | some p =>
            refine ⟨fun ⟨err, herr⟩ => ?_, fun hnone => absurd hnone (by simp)⟩
            have hn := ihiff.mp ⟨err, herr⟩
            rw [hm] at hn
            exact absurd hn (by simp)
        · intro buf' tEnd h
          rw [hstep] at h
          obtain ⟨hlen', es, hmes, hlen_es, hwritten, hpres⟩ := ihok buf' tEnd h
          refine ⟨hlen', e :: es, ?_, by simp [hlen_es], ?_, ?_⟩
          · rw [hmstep, hmes]
          · intro j hj
            cases j with
            | zero =>
              have hb40' : b < 40 := by omega
              have hunb : ∀ j', j' < fuel →
                  ¬(b / 8 = (b + 1 + j') / 8 ∧ 7 - b % 8 = 7 - (b + 1 + j') % 8) := by
                rintro j' hj' ⟨hk, hi⟩
                exact (by omega : ¬(b = b + 1 + j'))
                  (bitpos_inj hb40' (by omega) hk hi)
              have hpres_b := hpres (b / 8) (7 - b % 8) (by omega) hunb
              rw [show b + 0 = b from rfl, hpres_b]
              have hfree0 : Nat.testBit (buf.getD (b / 8) 0) (7 - b % 8) = false := by
                have h := hfree 0 (by omega)
                rw [show b + 0 = b from rfl] at h
                exact h
              show _ = decide (30 < (e :: es).getD 0 0)
              by_cases h30 : 30 < e
              · rw [if_pos h30,
                  testBit_setBit buf b (b / 8) (7 - b % 8) hlen hb40' (by omega),
                  hfree0]
                simp [h30]
              · rw [if_neg h30, hfree0]
                simp [h30]
            | succ j' =>
              have h := hwritten j' (by omega)
              rw [show b + (j' + 1) = b + 1 + j' from by omega]
              exact h
          · intro k i hk hun
            have hun2 : ∀ j, j < fuel →
                ¬(k = (b + 1 + j) / 8 ∧ i = 7 - (b + 1 + j) % 8) := by
              intro j hj hc
              refine hun (j + 1) (by omega) ?_
              rw [show b + (j + 1) = b + 1 + j from by omega]
              exact hc
            rw [hpres k i hk hun2]
            have hunb : ¬(k = b / 8 ∧ i = 7 - b % 8) := by
              have h := hun 0 (by omega)
              rw [show b + 0 = b from rfl] at h
              exact h
            by_cases h30 : 30 < e
            · rw [if_pos h30,
                testBit_setBit buf b k i hlen (by omega) hk]
              by_cases hd : k = b / 8
              · have hne : ¬(i = 7 - b % 8) := fun hc => hunb ⟨hd, hc⟩
                simp [hne]
              · simp [hd]
            · rw [if_neg h30]

end Dht22

/-- C3: the bit-extraction phase of `read()` performs exactly 40
iterations — on success the measurement projection yields a list of
exactly 40 measured high-pulse durations ending at the same clock —
and the packed frame holds, at byte `i / 8`, bit position `7 - i % 8`,
the bit 1 exactly when the i-th measured duration exceeds 30
microseconds (0 otherwise). -/
theorem dht_bit_extraction (trace : Nat → Bool) (t : Nat) (buf : List Nat)
    (tEnd : Nat)
    (h : Dht22.readBits trace 40 0 t [0, 0, 0, 0, 0] = .ok (buf, tEnd)) :
    buf.length = 5 ∧
      ∃ es, Dht22.measureBits trace 40 t = some (es, tEnd) ∧ es.length = 40 ∧
        ∀ i, i < 40 →
          Nat.testBit (buf.getD (i / 8) 0) (7 - i % 8) =
            decide (30 < es.getD i 0) := by
  have hzero : ∀ k, (([0, 0, 0, 0, 0] : List Nat)).getD k 0 = 0 := by
    intro k
    rcases k with _ | _ | _ | _ | _ | k <;> rfl
  have hfree : ∀ j, j < 40 →
      Nat.testBit (([0, 0, 0, 0, 0] : List Nat).getD ((0 + j) / 8) 0)
        (7 - (0 + j) % 8) = false := by
    intro j hj
    rw [hzero]
    exact Nat.zero_testBit _
  obtain ⟨-, hok⟩ :=
    Dht22.readBits_measure trace 40 0 t [0, 0, 0, 0, 0] rfl rfl hfree
  obtain ⟨hlen', es, hmes, hlen_es, hwritten, -⟩ := hok buf tEnd h
  refine ⟨hlen', es, hmes, hlen_es, ?_⟩
  intro i hi
  have h := hwritten i hi
  rw [show (0 : Nat) + i = i from by omega] at h
  exact h

/-- Witness for C3 at the trace that alternates every microsecond: all
forty durations measure 1 microsecond, so the frame stays all-zero. -/
theorem dht_bit_extraction_witness :
    ([0, 0, 0, 0, 0] : List Nat).length = 5 ∧
      ∃ es, Dht22.measureBits (fun n => decide (n % 2 = 0)) 40 0 =
          some (es, 79) ∧ es.length = 40 ∧
        ∀ i, i < 40 →
          Nat.testBit (([0, 0, 0, 0, 0] : List Nat).getD (i / 8) 0)
              (7 - i % 8) =
            decide (30 < es.getD i 0) :=
  dht_bit_extraction (fun n => decide (n % 2 = 0)) 0 [0, 0, 0, 0, 0] 79
    (by decide)
